import Mathlib

/-!
Shallow embedding of the geospatial lookup engine of the `rtz` repository.

The embedding covers:
* the query engine (`CanPerformGeoLookup::lookup`, `lookup_slow`,
  `get_lookup_suggestions`, `MapIntoItems::map_into_items` in
  `rtz/src/geo/shared.rs`);
* the per-variant fast-path lookup (`get_timezones` in
  `rtz/src/geo/tz/osm.rs`, mirrored by `ned.rs` and `src/base/geo.rs`);
* the grid builder (`get_lookup_from_geometries` in
  `rtz-core/src/geo/shared.rs`);
* the binary codec (`EncodableString`, `EncodableGeometry`, `EncodableIds`,
  `pad_string_alignment`, and the `OsmTimezone` decoders in
  `rtz-core/src/geo/`);
* the fixed-width id-array conversions (`i16_vec_to_tomezoneids`,
  `i16_vec_to_adminids`).

Modelling conventions:
* Rust floats (`Float` = `f32`/`f64`) are modelled by `F`: a rational for
  finite values plus the special values NaN, plus and minus infinity.
  Comparisons follow IEEE semantics (every comparison with NaN is false),
  and `f.floor() as i16` follows Rust's saturating float-to-int cast.
  Exact coordinate values are rationals, since the claims under study are
  about control flow and structure, not rounding.
* The geometry predicates `Contains::contains` and `Intersects::intersects`
  live in the external `geo` crate; they enter the embedding as Boolean
  function parameters.
* The `HashMap` lookup table is modelled by the association list of the
  exact key/value pairs the builder loop inserts (`lookupEntries`), read
  through `List.lookup`, together with a grid of keys in loop order.
* A Rust `panic!` is modelled as the `none` / error outcome of the
  enclosing operation.
* The `bincode` primitive layer (fixed-width integers, floats, byte
  strings) is external; the byte stream is modelled as a stream of
  primitive tokens `Tok`, each standing for one primitive value encoded by
  `bincode` itself.  The repository's composite encoders and decoders are
  translated on top of that layer.
-/

namespace Rtz

/-- The floating-point coordinate type `Float` of `rtz-core/src/base/types.rs`,
modelled as a rational together with the IEEE special values. -/
inductive F where
  | fin : ℚ → F
  | nan : F
  | inf : F
  | negInf : F
deriving DecidableEq, Repr

/-- IEEE `<` on `F`: any comparison involving NaN is false; `-inf` is below
every finite value and `inf` above. -/
def F.blt : F → F → Bool
  | .fin a, .fin b => decide (a < b)
  | .nan, _ => false
  | _, .nan => false
  | .negInf, .negInf => false
  | .negInf, _ => true
  | _, .negInf => false
  | .inf, _ => false
  | .fin _, .inf => true

/-- Rust `xf.floor() as i16` (`RoundDegree` cast in `lookup`): floor of the
float, then the saturating float-to-integer cast (NaN goes to 0, infinities
saturate to the i16 bounds). -/
def floorI16 : F → Int
  | .fin q => max (-32768) (min 32767 ⌊q⌋)
  | .nan => 0
  | .inf => 32767
  | .negInf => -32768

/-- A cell key `RoundLngLat = (i16, i16)`. -/
abbrev Cell := Int × Int

/-- An axis-aligned rectangle with rational corners, standing for
`geo::Rect` as constructed by the builder (`Rect::new(min, max)`). -/
structure Rect where
  min : ℚ × ℚ
  max : ℚ × ℚ
deriving DecidableEq, Repr

/-- The unit cell rectangle `Rect::new((x, y), (x + 1, y + 1))` built by the
per-cell sweep. -/
def cellRect (x y : Int) : Rect :=
  { min := ((x : ℚ), (y : ℚ)), max := ((x : ℚ) + 1, (y : ℚ) + 1) }

/-- An item record with the `HasGeometry` interface: a dense `id` and a
geometry of some type `G` (the geometry representation is a parameter of
the generic query code). -/
structure Item (G : Type) where
  id : Nat
  geometry : G
deriving DecidableEq, Repr

section Query

variable {G : Type}

/-- Rust `MapIntoItems::map_into_items` (rtz/src/geo/shared.rs): for each id in
the cell list take `&items[*id as usize]`; the out-of-bounds index panic is
modelled as `none`. -/
def map_into_items (items : List (Item G)) : List Nat → Option (List (Item G))
  | [] => some []
  | id :: rest =>
    match items.get? id, map_into_items items rest with
    | some item, some r => some (item :: r)
    | _, _ => none

/-- Rust `CanPerformGeoLookup::lookup` (rtz/src/geo/shared.rs): floor the
coordinates to a cell, fetch the candidate ids, map them to item
references, and filter by exact containment.  The containment predicate
`contains` is the external `geo::Contains` primitive.  A missing cell entry
yields the empty vector; the result is `none` exactly when the id-to-item
indexing would panic. -/
def lookup (contains : G → F → F → Bool) (table : Cell → Option (List Nat))
    (items : List (Item G)) (xf yf : F) : Option (List (Item G)) :=
  match table (floorI16 xf, floorI16 yf) with
  | none => some []
  | some ids =>
    match map_into_items items ids with
    | none => none
    | some suggestions => some (suggestions.filter (fun i => contains i.geometry xf yf))

/-- Rust `CanPerformGeoLookup::lookup_slow` (rtz/src/geo/shared.rs): filter the
whole item vector by exact containment. -/
def lookup_slow (contains : G → F → F → Bool) (items : List (Item G)) (xf yf : F) :
    List (Item G) :=
  items.filter (fun i => contains i.geometry xf yf)

end Query

section Builder

variable {G : Type}

/-- The body of the per-cell sweep in `get_lookup_from_geometries`
(rtz-core/src/geo/shared.rs): the ids of the items whose geometry
intersects the unit cell rectangle, in item-vector order.  The
`intersects` predicate is the external `geo::Intersects` primitive. -/
def cellIds (intersects : G → Rect → Bool) (items : List (Item G)) (x y : Int) :
    List Nat :=
  (items.filter (fun g => intersects g.geometry (cellRect x y))).map (fun g => g.id)

/-- The integer range `a..a+n` as a list, mirroring the Rust range loops
`(-180..180)` and `(-90..90)`. -/
def intRange (a : Int) (n : Nat) : List Int :=
  (List.range n).map (fun i : Nat => a + (i : Int))

/-- The key/value pairs inserted by `get_lookup_from_geometries`: one entry
per cell of the 360 by 180 grid, outer loop over x, inner loop over y. -/
def lookupEntries (intersects : G → Rect → Bool) (items : List (Item G)) :
    List (Cell × List Nat) :=
  (intRange (-180) 360).flatMap
    (fun x => (intRange (-90) 180).map (fun y => ((x, y), cellIds intersects items x y)))

/-- Rust `get_lookup_from_geometries` (rtz-core/src/geo/shared.rs) read as a
map: the `HashMap` holding exactly the inserted entries, accessed through
association-list lookup. -/
def get_lookup_from_geometries (intersects : G → Rect → Bool) (items : List (Item G))
    (c : Cell) : Option (List Nat) :=
  (lookupEntries intersects items).lookup c

/-- The domain predicate for grid cells: x in [-180, 180), y in [-90, 90). -/
def inDomain (c : Cell) : Prop :=
  -180 ≤ c.1 ∧ c.1 < 180 ∧ -90 ≤ c.2 ∧ c.2 < 90

instance (c : Cell) : Decidable (inDomain c) := by
  unfold inDomain
  infer_instance

end Builder

section BuilderLemmas

variable {G : Type}

theorem mem_intRange {a : Int} {n : Nat} {z : Int} :
    z ∈ intRange a n ↔ a ≤ z ∧ z < a + n := by
  unfold intRange
  constructor
  · intro hz
    rcases List.mem_map.mp hz with ⟨i, hi, rfl⟩
    rw [List.mem_range] at hi
    have hin : (i : Int) < (n : Int) := Int.ofNat_lt.mpr hi
    constructor
    · omega
    · omega
  · rintro ⟨h1, h2⟩
    refine List.mem_map.mpr ⟨(z - a).toNat, ?_, ?_⟩
    · rw [List.mem_range]
      omega
    · omega

theorem lookup_map_pairs {β : Type} (x : Int) (v : Int → β) (c : Cell) (ys : List Int) :
    ((ys.map (fun y => ((x, y), v y))).lookup c) =
      if c.1 = x ∧ c.2 ∈ ys then some (v c.2) else none := by
  induction ys with
  | nil => simp [List.lookup]
  | cons y ys ih =>
    simp only [List.map_cons, List.lookup]
    rcases c with ⟨cx, cy⟩
    by_cases hx : cx = x
    · by_cases hy : cy = y
      · subst hx; subst hy
        simp [List.lookup]
      · have hbeq : ((cx, cy) == (x, y)) = false := by
          simp [hx, hy]
        rw [hbeq, ih]
        simp only [List.mem_cons]
        by_cases hmem : cy ∈ ys
        · simp [hx, hy, hmem]
        · simp [hx, hy, hmem]
    · have hbeq : ((cx, cy) == (x, y)) = false := by
        simp [hx]
      rw [hbeq, ih]
      simp [hx]

theorem lookup_append {β : Type} (c : Cell) (l₁ l₂ : List (Cell × β)) :
    (l₁ ++ l₂).lookup c = ((l₁.lookup c).or (l₂.lookup c)) := by
  induction l₁ with
  | nil => simp [List.lookup]
  | cons e l₁ ih =>
    rcases e with ⟨k, v⟩
    simp only [List.cons_append, List.lookup]
    by_cases hk : c == k
    · simp [hk]
    · simp only [Bool.not_eq_true] at hk
      rw [hk]
      simp only [List.append_eq] at *
      rw [ih]

theorem lookup_entries_eq (intersects : G → Rect → Bool) (items : List (Item G))
    (c : Cell) :
    get_lookup_from_geometries intersects items c =
      if inDomain c then some (cellIds intersects items c.1 c.2) else none := by
  unfold get_lookup_from_geometries lookupEntries
  have key : ∀ (xs : List Int),
      ((xs.flatMap (fun x => (intRange (-90) 180).map
          (fun y => ((x, y), cellIds intersects items x y)))).lookup c) =
        if c.1 ∈ xs ∧ c.2 ∈ intRange (-90) 180
        then some (cellIds intersects items c.1 c.2) else none := by
    intro xs
    induction xs with
    | nil => simp [List.lookup]
    | cons x xs ih =>
      rw [List.flatMap_cons, lookup_append, lookup_map_pairs, ih]
      by_cases hx : c.1 = x
      · subst hx
        by_cases hy : c.2 ∈ intRange (-90) 180
        · simp [hy]
        · simp [hy]
      · by_cases hmem : c.1 ∈ xs
        · simp [hx, hmem]
        · simp [hx, hmem]
  rw [key]
  have hdom : (c.1 ∈ intRange (-180) 360 ∧ c.2 ∈ intRange (-90) 180) ↔ inDomain c := by
    rw [mem_intRange, mem_intRange]
    unfold inDomain
    constructor
    · rintro ⟨⟨h1, h2⟩, h3, h4⟩
      refine ⟨h1, by omega, h3, by omega⟩
    · rintro ⟨h1, h2, h3, h4⟩
      exact ⟨⟨h1, by omega⟩, h3, by omega⟩
  by_cases h : inDomain c
  · rw [if_pos (hdom.mpr h), if_pos h]
  · rw [if_neg (fun hc => h (hdom.mp hc)), if_neg h]

theorem intRange_nodup (a : Int) (n : Nat) : (intRange a n).Nodup := by
  unfold intRange
  refine List.Nodup.map ?_ (List.nodup_range n)
  intro i j h
  simp only [add_right_inj, Nat.cast_inj] at h
  exact h

theorem intRange_length (a : Int) (n : Nat) : (intRange a n).length = n := by
  unfold intRange
  rw [List.length_map, List.length_range]

theorem keys_lookupEntries (intersects : G → Rect → Bool) (items : List (Item G)) :
    (lookupEntries intersects items).map Prod.fst =
      intRange (-180) 360 ×ˢ intRange (-90) 180 := by
  unfold lookupEntries
  rw [List.map_flatMap]
  show _ = (intRange (-180) 360).flatMap (fun a => (intRange (-90) 180).map (Prod.mk a))
  apply List.flatMap_congr
  intro x _
  rw [List.map_map]
  rfl

theorem length_lookupEntries (intersects : G → Rect → Bool) (items : List (Item G)) :
    (lookupEntries intersects items).length = 64800 := by
  have h := congrArg List.length (keys_lookupEntries intersects items)
  rw [List.length_map, List.length_product, intRange_length, intRange_length] at h
  rw [h]

theorem keys_lookupEntries_nodup (intersects : G → Rect → Bool) (items : List (Item G)) :
    ((lookupEntries intersects items).map Prod.fst).Nodup := by
  rw [keys_lookupEntries]
  exact (intRange_nodup _ _).product (intRange_nodup _ _)

theorem mem_keys_lookupEntries (intersects : G → Rect → Bool) (items : List (Item G))
    (c : Cell) :
    c ∈ (lookupEntries intersects items).map Prod.fst ↔ inDomain c := by
  rw [keys_lookupEntries]
  rcases c with ⟨x, y⟩
  rw [List.mem_product, mem_intRange, mem_intRange]
  unfold inDomain
  constructor
  · rintro ⟨⟨h1, h2⟩, h3, h4⟩
    exact ⟨h1, by omega, h3, by omega⟩
  · rintro ⟨h1, h2, h3, h4⟩
    exact ⟨⟨h1, by omega⟩, h3, by omega⟩

end BuilderLemmas

section Variant

variable {G : Type}

/-- Rust `id as usize` on an `i16` value: non-negative values pass through,
negative values sign-extend to a huge unsigned word. -/
def i16ToUsize (id : Int) : Nat :=
  if 0 ≤ id then id.toNat else (18446744073709551616 + id).toNat

/-- Rust `MapIntoTimezones::map_timezones` (rtz/src/geo/tz/shared.rs): walk the
fixed-width id array, skip the `-1` sentinel entries, and look each id up
in the global item vector with the non-panicking `get`, silently dropping
ids with no item. -/
def map_timezones (items : List (Item G)) : List Int → List (Item G)
  | [] => []
  | id :: rest =>
    if id = -1 then map_timezones items rest
    else
      match items.get? (i16ToUsize id) with
      | some tz => tz :: map_timezones items rest
      | none => map_timezones items rest

/-- Rust `get_timezones` (rtz/src/geo/tz/osm.rs): the variant lookup with the
fast path.  After mapping the cell's id array to item references, a cell
with exactly one candidate at a strictly interior point is returned without
the exact containment check; otherwise candidates are filtered by
containment.  The comparisons follow IEEE float semantics. -/
def get_timezones (contains : G → F → F → Bool) (cache : Cell → Option (List Int))
    (items : List (Item G)) (xf yf : F) : List (Item G) :=
  match cache (floorI16 xf, floorI16 yf) with
  | none => []
  | some ids =>
    let timezones := map_timezones items ids
    if timezones.length = 1 ∧
        F.blt (F.fin (-179)) xf ∧ F.blt xf (F.fin 179) ∧
        F.blt (F.fin (-89)) yf ∧ F.blt yf (F.fin 89)
    then timezones
    else timezones.filter (fun tz => contains tz.geometry xf yf)

end Variant

section FixedWidth

/-- Rust `id as i16` on an unsigned id (`tz.id() as RoundInt` in
`get_cache_from_timezones`): two's-complement wrap-around into the i16
range. -/
def toI16Wrap (n : Nat) : Int :=
  ((n : Int) + 32768) % 65536 - 32768

/-- Rust `i16_vec_to_tomezoneids` (rtz-core/src/geo/tz/shared.rs): convert a
cell's id vector into the fixed `TimezoneIds` array of length 7, panicking
(`none`) when the vector is longer than `TIMEZONE_LIST_LENGTH = 7` and
padding the tail with `-1`. -/
def i16_vec_to_tomezoneids (value : List Int) : Option (List Int) :=
  if value.length > 7 then none
  else
    some [(value.get? 0).getD (-1), (value.get? 1).getD (-1), (value.get? 2).getD (-1),
      (value.get? 3).getD (-1), (value.get? 4).getD (-1), (value.get? 5).getD (-1),
      (value.get? 6).getD (-1)]

/-- Rust `i16_vec_to_adminids` (rtz-core/src/geo/admin/shared.rs): the same
conversion with `ADMIN_LOOKUP_LENGTH = 9`. -/
def i16_vec_to_adminids (value : List Int) : Option (List Int) :=
  if value.length > 9 then none
  else
    some [(value.get? 0).getD (-1), (value.get? 1).getD (-1), (value.get? 2).getD (-1),
      (value.get? 3).getD (-1), (value.get? 4).getD (-1), (value.get? 5).getD (-1),
      (value.get? 6).getD (-1), (value.get? 7).getD (-1), (value.get? 8).getD (-1)]

/-- The cache-initialization map of `OsmTimezone::get_cache`
(rtz/src/geo/tz/osm.rs): every decoded cell vector is pushed through
`i16_vec_to_tomezoneids`; one panic aborts the whole initialization. -/
def initCacheEntries : List (Cell × List Int) → Option (List (Cell × List Int))
  | [] => some []
  | (k, v) :: rest =>
    match i16_vec_to_tomezoneids v, initCacheEntries rest with
    | some w, some r => some ((k, w) :: r)
    | _, _ => none

end FixedWidth

section Codec

/-- One primitive value in the bincode stream: a fixed-width machine
integer (`usize` lengths and discriminants, id words, raw string bytes) or
one floating coordinate of the chosen precision. -/
inductive Tok where
  | word : Nat → Tok
  | flt : ℚ → Tok
deriving DecidableEq, Repr

/-- A decode failure.  `truncated` stands for bincode's unexpected-end /
mismatched-primitive errors; `unsupportedVariant` stands for the fatal
`panic!("Unsupported variant.")` abort on an unknown discriminant. -/
inductive DecErr where
  | truncated : DecErr
  | unsupportedVariant : DecErr
deriving DecidableEq, Repr

/-- Decode one machine word (`usize::decode`). -/
def decodeUsize : List Tok → Except DecErr (Nat × List Tok)
  | Tok.word n :: rest => .ok (n, rest)
  | _ => .error .truncated

/-- Decode one float (`Float::decode`). -/
def decodeFloat : List Tok → Except DecErr (ℚ × List Tok)
  | Tok.flt x :: rest => .ok (x, rest)
  | _ => .error .truncated

/-- Take `n` machine words from the stream (the byte payload of a
length-prefixed `Vec<u8>` / `str`). -/
def takeWords : Nat → List Tok → Except DecErr (List Nat × List Tok)
  | 0, rest => .ok ([], rest)
  | n + 1, Tok.word b :: rest =>
    match takeWords n rest with
    | .ok (bs, r) => .ok (b :: bs, r)
    | .error e => .error e
  | _ + 1, _ => .error .truncated

/-- Take `n` floats from the stream (the `take_bytes` reinterpretation of a
coordinate run in the zero-copy decoder). -/
def takeFlts : Nat → List Tok → Except DecErr (List ℚ × List Tok)
  | 0, rest => .ok ([], rest)
  | n + 1, Tok.flt x :: rest =>
    match takeFlts n rest with
    | .ok (xs, r) => .ok (x :: xs, r)
    | .error e => .error e
  | _ + 1, _ => .error .truncated

/-- Rust `pad_string_alignment` (rtz-core/src/geo/shared.rs): append zero bytes
so the byte length becomes a multiple of the float alignment.  The
alignment is `align_of::<Float>() = 4` for the default `f32` build.  Note
that when the length is already aligned a full extra alignment block is
appended, so at least one zero byte is always added. -/
def pad_string_alignment (s : List Nat) : List Nat :=
  s ++ List.replicate (4 - s.length % 4) 0

/-- Rust `EncodableString::encode`: encode the padded bytes as a
length-prefixed byte vector. -/
def encodeEncodableString (s : List Nat) : List Tok :=
  Tok.word (pad_string_alignment s).length ::
    (pad_string_alignment s).map Tok.word

/-- Rust `EncodableString::decode` (also its `borrow_decode`): decode a plain
length-prefixed string; the padding is not stripped. -/
def decodeEncodableString (toks : List Tok) : Except DecErr (List Nat × List Tok) :=
  match decodeUsize toks with
  | .ok (n, rest) => takeWords n rest
  | .error e => .error e

/-- A polygon: one exterior ring and a list of interior rings, coordinates
in the chosen float precision. -/
structure Poly where
  exterior : List (ℚ × ℚ)
  interiors : List (List (ℚ × ℚ))
deriving DecidableEq, Repr

/-- The polygonal geometry variants supported by `EncodableGeometry`. -/
inductive Geom where
  | polygon : Poly → Geom
  | multiPolygon : List Poly → Geom
deriving DecidableEq, Repr

/-- The coordinate-pair run of a ring as encoded by `encode_poly`. -/
def encodeCoords (cs : List (ℚ × ℚ)) : List Tok :=
  cs.flatMap (fun c => [Tok.flt c.1, Tok.flt c.2])

/-- Rust `encode_poly` (rtz-core/src/geo/shared.rs): exterior length, exterior
coordinates, interior count, then each interior as length plus
coordinates. -/
def encode_poly (p : Poly) : List Tok :=
  Tok.word p.exterior.length :: encodeCoords p.exterior ++
    Tok.word p.interiors.length ::
      p.interiors.flatMap (fun r => Tok.word r.length :: encodeCoords r)

/-- Rust `EncodableGeometry::encode`: a discriminant word (0 = polygon,
1 = multi-polygon) followed by the payload. -/
def encodeGeometry : Geom → List Tok
  | .polygon p => Tok.word 0 :: encode_poly p
  | .multiPolygon ps => Tok.word 1 :: Tok.word ps.length :: ps.flatMap encode_poly

/-- Read `n` coordinate pairs (the loop of `decode_poly`). -/
def decodeCoords : Nat → List Tok → Except DecErr (List (ℚ × ℚ) × List Tok)
  | 0, rest => .ok ([], rest)
  | n + 1, toks =>
    match decodeFloat toks with
    | .error e => .error e
    | .ok (x, r1) =>
      match decodeFloat r1 with
      | .error e => .error e
      | .ok (y, r2) =>
        match decodeCoords n r2 with
        | .error e => .error e
        | .ok (cs, r3) => .ok ((x, y) :: cs, r3)

/-- Read `n` interior rings, each a length-prefixed coordinate run. -/
def decodeInteriors : Nat → List Tok → Except DecErr (List (List (ℚ × ℚ)) × List Tok)
  | 0, rest => .ok ([], rest)
  | n + 1, toks =>
    match decodeUsize toks with
    | .error e => .error e
    | .ok (len, r1) =>
      match decodeCoords len r1 with
      | .error e => .error e
      | .ok (ring, r2) =>
        match decodeInteriors n r2 with
        | .error e => .error e
        | .ok (rings, r3) => .ok (ring :: rings, r3)

/-- Rust `decode_poly` (owned path). -/
def decode_poly (toks : List Tok) : Except DecErr (Poly × List Tok) :=
  match decodeUsize toks with
  | .error e => .error e
  | .ok (extLen, r1) =>
    match decodeCoords extLen r1 with
    | .error e => .error e
    | .ok (ext, r2) =>
      match decodeUsize r2 with
      | .error e => .error e
      | .ok (intLen, r3) =>
        match decodeInteriors intLen r3 with
        | .error e => .error e
        | .ok (ints, r4) => .ok (⟨ext, ints⟩, r4)

/-- Read `n` polygons (the loop of the multi-polygon branch). -/
def decodePolys : Nat → List Tok → Except DecErr (List Poly × List Tok)
  | 0, rest => .ok ([], rest)
  | n + 1, toks =>
    match decode_poly toks with
    | .error e => .error e
    | .ok (p, r1) =>
      match decodePolys n r1 with
      | .error e => .error e
      | .ok (ps, r2) => .ok (p :: ps, r2)

/-- Rust `EncodableGeometry::decode` (owned path): read the discriminant, then
the payload; any discriminant other than 0 or 1 hits
`panic!("Unsupported variant.")`, modelled as the `unsupportedVariant`
failure. -/
def decodeGeometry (toks : List Tok) : Except DecErr (Geom × List Tok) :=
  match decodeUsize toks with
  | .error e => .error e
  | .ok (variant, r1) =>
    if variant = 0 then
      match decode_poly r1 with
      | .error e => .error e
      | .ok (p, r2) => .ok (.polygon p, r2)
    else if variant = 1 then
      match decodeUsize r1 with
      | .error e => .error e
      | .ok (n, r2) =>
        match decodePolys n r2 with
        | .error e => .error e
        | .ok (ps, r3) => .ok (.multiPolygon ps, r3)
    else .error .unsupportedVariant

/-- Chunk a flat float run into coordinate pairs (the pointer
reinterpretation of `borrow_decode_poly`). -/
def pairUp : List ℚ → List (ℚ × ℚ)
  | x :: y :: rest => (x, y) :: pairUp rest
  | _ => []

/-- Rust `borrow_decode_poly` (zero-copy path): read the length, take the whole
coordinate run at once and reinterpret it as pairs, then the interiors the
same way. -/
def borrowTakeRing (toks : List Tok) : Except DecErr (List (ℚ × ℚ) × List Tok) :=
  match decodeUsize toks with
  | .error e => .error e
  | .ok (len, r1) =>
    match takeFlts (len * 2) r1 with
    | .error e => .error e
    | .ok (xs, r2) => .ok (pairUp xs, r2)

/-- The interior-ring loop of `borrow_decode_poly`. -/
def borrowDecodeInteriors : Nat → List Tok →
    Except DecErr (List (List (ℚ × ℚ)) × List Tok)
  | 0, rest => .ok ([], rest)
  | n + 1, toks =>
    match borrowTakeRing toks with
    | .error e => .error e
    | .ok (ring, r1) =>
      match borrowDecodeInteriors n r1 with
      | .error e => .error e
      | .ok (rings, r2) => .ok (ring :: rings, r2)

/-- Rust `borrow_decode_poly` assembled. -/
def borrow_decode_poly (toks : List Tok) : Except DecErr (Poly × List Tok) :=
  match borrowTakeRing toks with
  | .error e => .error e
  | .ok (ext, r1) =>
    match decodeUsize r1 with
    | .error e => .error e
    | .ok (intLen, r2) =>
      match borrowDecodeInteriors intLen r2 with
      | .error e => .error e
      | .ok (ints, r3) => .ok (⟨ext, ints⟩, r3)

/-- The polygon loop of the zero-copy multi-polygon branch. -/
def borrowDecodePolys : Nat → List Tok → Except DecErr (List Poly × List Tok)
  | 0, rest => .ok ([], rest)
  | n + 1, toks =>
    match borrow_decode_poly toks with
    | .error e => .error e
    | .ok (p, r1) =>
      match borrowDecodePolys n r1 with
      | .error e => .error e
      | .ok (ps, r2) => .ok (p :: ps, r2)

/-- Rust `EncodableGeometry::borrow_decode` (zero-copy path): same discriminant
handling as the owned path, with the same fatal panic on an unknown
variant. -/
def borrowDecodeGeometry (toks : List Tok) : Except DecErr (Geom × List Tok) :=
  match decodeUsize toks with
  | .error e => .error e
  | .ok (variant, r1) =>
    if variant = 0 then
      match borrow_decode_poly r1 with
      | .error e => .error e
      | .ok (p, r2) => .ok (.polygon p, r2)
    else if variant = 1 then
      match decodeUsize r1 with
      | .error e => .error e
      | .ok (n, r2) =>
        match borrowDecodePolys n r2 with
        | .error e => .error e
        | .ok (ps, r3) => .ok (.multiPolygon ps, r3)
    else .error .unsupportedVariant

/-- An `OsmTimezone` item as serialized: the dense id, the IANA identifier
as its UTF-8 bytes, and the polygonal geometry
(rtz-core/src/geo/tz/osm.rs). -/
structure OsmTimezone where
  id : Nat
  identifier : List Nat
  geometry : Geom
deriving DecidableEq, Repr

/-- The derived `Encode` for `OsmTimezone`: id, identifier, geometry in
field order. -/
def encodeOsmTimezone (t : OsmTimezone) : List Tok :=
  Tok.word t.id :: (encodeEncodableString t.identifier ++ encodeGeometry t.geometry)

/-- Rust `OsmTimezone::decode` (owned path). -/
def decodeOsmTimezone (toks : List Tok) : Except DecErr (OsmTimezone × List Tok) :=
  match decodeUsize toks with
  | .error e => .error e
  | .ok (id, r1) =>
    match decodeEncodableString r1 with
    | .error e => .error e
    | .ok (ident, r2) =>
      match decodeGeometry r2 with
      | .error e => .error e
      | .ok (g, r3) => .ok (⟨id, ident, g⟩, r3)

/-- The derived `Encode` for `ConcreteVec<OsmTimezone>`: a length prefix
followed by each item. -/
def encodeConcreteVec (ts : List OsmTimezone) : List Tok :=
  Tok.word ts.length :: ts.flatMap encodeOsmTimezone

/-- The item loop of the derived `Decode` for `ConcreteVec<OsmTimezone>`. -/
def decodeOsmTimezones : Nat → List Tok → Except DecErr (List OsmTimezone × List Tok)
  | 0, rest => .ok ([], rest)
  | n + 1, toks =>
    match decodeOsmTimezone toks with
    | .error e => .error e
    | .ok (t, r1) =>
      match decodeOsmTimezones n r1 with
      | .error e => .error e
      | .ok (ts, r2) => .ok (t :: ts, r2)

/-- The derived `Decode` for `ConcreteVec<OsmTimezone>`. -/
def decodeConcreteVec (toks : List Tok) : Except DecErr (List OsmTimezone × List Tok) :=
  match decodeUsize toks with
  | .error e => .error e
  | .ok (n, r1) => decodeOsmTimezones n r1

/-- The item actually produced by a decode round trip: the identifier keeps
the zero padding added by `pad_string_alignment`. -/
def padOsmTimezone (t : OsmTimezone) : OsmTimezone :=
  { t with identifier := pad_string_alignment t.identifier }

end Codec

section CodecLemmas

theorem takeWords_round (bs : List Nat) (rest : List Tok) :
    takeWords bs.length (bs.map Tok.word ++ rest) = .ok (bs, rest) := by
  induction bs with
  | nil => rfl
  | cons b bs ih =>
    simp only [List.length_cons, List.map_cons, List.cons_append, takeWords,
      List.append_eq, ih]

theorem decodeEncodableString_round (s : List Nat) (rest : List Tok) :
    decodeEncodableString (encodeEncodableString s ++ rest) =
      .ok (pad_string_alignment s, rest) := by
  unfold decodeEncodableString encodeEncodableString decodeUsize
  simp only [List.cons_append]
  exact takeWords_round _ _

theorem decodeCoords_round (cs : List (ℚ × ℚ)) (rest : List Tok) :
    decodeCoords cs.length (encodeCoords cs ++ rest) = .ok (cs, rest) := by
  induction cs with
  | nil => rfl
  | cons c cs ih =>
    simp only [encodeCoords, List.flatMap_cons, List.length_cons, List.cons_append,
      List.append_assoc]
    simp only [encodeCoords] at ih
    simp only [decodeCoords, decodeFloat, List.nil_append, ih, Prod.mk.eta]

theorem decodeInteriors_round (rs : List (List (ℚ × ℚ))) (rest : List Tok) :
    decodeInteriors rs.length
        (rs.flatMap (fun r => Tok.word r.length :: encodeCoords r) ++ rest) =
      .ok (rs, rest) := by
  induction rs with
  | nil => rfl
  | cons r rs ih =>
    simp only [List.flatMap_cons, List.length_cons, List.cons_append, List.append_assoc]
    simp only [decodeInteriors, decodeUsize, decodeCoords_round, ih]

theorem decode_poly_round (p : Poly) (rest : List Tok) :
    decode_poly (encode_poly p ++ rest) = .ok (p, rest) := by
  unfold decode_poly encode_poly
  simp only [List.cons_append, List.append_assoc, decodeUsize, decodeCoords_round,
    decodeInteriors_round]

theorem decodePolys_round (ps : List Poly) (rest : List Tok) :
    decodePolys ps.length (ps.flatMap encode_poly ++ rest) = .ok (ps, rest) := by
  induction ps with
  | nil => rfl
  | cons p ps ih =>
    simp only [List.flatMap_cons, List.length_cons, List.append_assoc]
    simp only [decodePolys, decode_poly_round, ih]

theorem decodeGeometry_round (g : Geom) (rest : List Tok) :
    decodeGeometry (encodeGeometry g ++ rest) = .ok (g, rest) := by
  cases g with
  | polygon p =>
    unfold decodeGeometry encodeGeometry
    simp only [List.cons_append, decodeUsize, decode_poly_round]
    simp
  | multiPolygon ps =>
    unfold decodeGeometry encodeGeometry
    simp only [List.cons_append, decodeUsize, decodePolys_round]
    simp

theorem decodeOsmTimezone_round (t : OsmTimezone) (rest : List Tok) :
    decodeOsmTimezone (encodeOsmTimezone t ++ rest) = .ok (padOsmTimezone t, rest) := by
  unfold decodeOsmTimezone encodeOsmTimezone padOsmTimezone
  simp only [List.cons_append, List.append_assoc, decodeUsize,
    decodeEncodableString_round, decodeGeometry_round]

theorem decodeOsmTimezones_round (ts : List OsmTimezone) (rest : List Tok) :
    decodeOsmTimezones ts.length (ts.flatMap encodeOsmTimezone ++ rest) =
      .ok (ts.map padOsmTimezone, rest) := by
  induction ts with
  | nil => rfl
  | cons t ts ih =>
    simp only [List.flatMap_cons, List.length_cons, List.map_cons, List.append_assoc]
    simp only [decodeOsmTimezones, decodeOsmTimezone_round, ih]

theorem decodeConcreteVec_round (ts : List OsmTimezone) (rest : List Tok) :
    decodeConcreteVec (encodeConcreteVec ts ++ rest) =
      .ok (ts.map padOsmTimezone, rest) := by
  unfold decodeConcreteVec encodeConcreteVec
  simp only [List.cons_append, decodeUsize, decodeOsmTimezones_round]

end CodecLemmas

section QueryLemmas

variable {G : Type}

/-- The invariant of the item vector built by `ConcreteVec::from`: the id of
each item is its position (ids are assigned by `enumerate` in insertion
order). -/
def IdsAreIndices (items : List (Item G)) : Prop :=
  ∀ (k : Nat) (h : k < items.length), (items.get ⟨k, h⟩).id = k

theorem get_eq_of_ids {items : List (Item G)} (hids : IdsAreIndices items) :
    ∀ i ∈ items, items.get? i.id = some i := by
  intro i hi
  rcases List.mem_iff_get.mp hi with ⟨⟨n, hn⟩, rfl⟩
  rw [hids n hn, List.get?_eq_get hn]

theorem map_into_items_of_get {items sub : List (Item G)}
    (h : ∀ i ∈ sub, items.get? i.id = some i) :
    map_into_items items (sub.map (fun i => i.id)) = some sub := by
  induction sub with
  | nil => rfl
  | cons i sub ih =>
    simp only [List.map_cons, map_into_items]
    rw [h i (List.mem_cons_self i sub), ih (fun j hj => h j (List.mem_cons_of_mem i hj))]

theorem map_into_items_isSome {items : List (Item G)} {ids : List Nat}
    (h : ∀ id ∈ ids, id < items.length) :
    ∃ l, map_into_items items ids = some l := by
  induction ids with
  | nil => exact ⟨[], rfl⟩
  | cons id ids ih =>
    rcases ih (fun j hj => h j (List.mem_cons_of_mem id hj)) with ⟨l, hl⟩
    have hid : id < items.length := h id (List.mem_cons_self id ids)
    refine ⟨items.get ⟨id, hid⟩ :: l, ?_⟩
    simp only [map_into_items, List.get?_eq_get hid, hl]

theorem map_id_pairwise {items : List (Item G)} (hids : IdsAreIndices items) :
    (items.map (fun i => i.id)).Pairwise (· < ·) := by
  rw [List.pairwise_iff_getElem]
  intro i j hi hj hij
  rw [List.length_map] at hi hj
  have hgi : (items.map (fun i => i.id))[i] = i := by
    rw [List.getElem_map]
    exact hids i hi
  have hgj : (items.map (fun i => i.id))[j] = j := by
    rw [List.getElem_map]
    exact hids j hj
  rw [hgi, hgj]
  exact hij

theorem cellIds_pairwise (intersects : G → Rect → Bool) {items : List (Item G)}
    (hids : IdsAreIndices items) (x y : Int) :
    (cellIds intersects items x y).Pairwise (· < ·) := by
  unfold cellIds
  exact (map_id_pairwise hids).sublist ((List.filter_sublist items).map _)

theorem floorI16_fin_of_dom {q : ℚ} (h1 : -180 ≤ q) (h2 : q < 180) :
    floorI16 (F.fin q) = ⌊q⌋ := by
  simp only [floorI16]
  have hl : (-180 : Int) ≤ ⌊q⌋ := by
    rw [Int.le_floor]
    push_cast
    linarith
  have hr : ⌊q⌋ < 180 := by
    rw [Int.floor_lt]
    push_cast
    linarith
  omega

theorem floorI16_fin_of_dom_y {r : ℚ} (h1 : -90 ≤ r) (h2 : r < 90) :
    floorI16 (F.fin r) = ⌊r⌋ := by
  simp only [floorI16]
  have hl : (-90 : Int) ≤ ⌊r⌋ := by
    rw [Int.le_floor]
    push_cast
    linarith
  have hr : ⌊r⌋ < 90 := by
    rw [Int.floor_lt]
    push_cast
    linarith
  omega

end QueryLemmas

section Claims

variable {G : Type}

/-- C1.  For a query point strictly inside the cell domain, the
grid-assisted `lookup` over the table produced by
`get_lookup_from_geometries` from the same item vector returns exactly the
item sequence of the exhaustive `lookup_slow`.  The bridging geometric
fact — a geometry containing the point intersects the closed unit cell
rectangle of the point's cell — is the stated proviso on the external
`geo` predicates and enters as the hypothesis `hsound`; `hids` is the
builder invariant that ids are positions in the item vector. -/
theorem lookup_eq_lookup_slow_inside_domain
    (intersects : G → Rect → Bool) (contains : G → F → F → Bool)
    (items : List (Item G)) (hids : IdsAreIndices items)
    (q r : ℚ) (hq1 : -180 ≤ q) (hq2 : q < 180) (hr1 : -90 ≤ r) (hr2 : r < 90)
    (hsound : ∀ i ∈ items, contains i.geometry (F.fin q) (F.fin r) = true →
      intersects i.geometry (cellRect ⌊q⌋ ⌊r⌋) = true) :
    lookup contains (get_lookup_from_geometries intersects items) items
        (F.fin q) (F.fin r) =
      some (lookup_slow contains items (F.fin q) (F.fin r)) := by
  have hdom : inDomain (⌊q⌋, ⌊r⌋) := by
    refine ⟨?_, ?_, ?_, ?_⟩ <;>
      simp only [Int.le_floor, Int.floor_lt] <;> push_cast <;> linarith
  have htab := lookup_entries_eq intersects items (⌊q⌋, ⌊r⌋)
  rw [if_pos hdom] at htab
  have hmap : map_into_items items
      ((items.filter (fun g => intersects g.geometry (cellRect ⌊q⌋ ⌊r⌋))).map
        (fun i => i.id)) =
      some (items.filter (fun g => intersects g.geometry (cellRect ⌊q⌋ ⌊r⌋))) :=
    map_into_items_of_get (fun i hi => get_eq_of_ids hids i (List.mem_of_mem_filter hi))
  simp only [lookup, floorI16_fin_of_dom hq1 hq2, floorI16_fin_of_dom_y hr1 hr2, htab,
    cellIds, hmap, lookup_slow]
  rw [List.filter_filter]
  congr 1
  apply List.filter_congr
  intro i hi
  cases hcon : contains i.geometry (F.fin q) (F.fin r) with
  | false => simp
  | true => simp [hsound i hi hcon]

/-- C4.  In the table produced by the builder, an item's id is a member of
a cell's id list exactly when the item's geometry intersects that cell's
unit rectangle; `hids` is the builder invariant that ids are positions in
the item vector, which makes ids injective. -/
theorem cellIds_mem_iff_intersects
    (intersects : G → Rect → Bool) (items : List (Item G))
    (hids : IdsAreIndices items) (i : Item G) (hi : i ∈ items)
    (x y : Int) (cids : List Nat)
    (hc : get_lookup_from_geometries intersects items (x, y) = some cids) :
    i.id ∈ cids ↔ intersects i.geometry (cellRect x y) = true := by
  have htab := lookup_entries_eq intersects items (x, y)
  by_cases hdom : inDomain (x, y)
  · rw [if_pos hdom] at htab
    rw [htab] at hc
    cases hc
    unfold cellIds
    constructor
    · intro hmem
      rcases List.mem_map.mp hmem with ⟨j, hj, hje⟩
      rcases List.mem_filter.mp hj with ⟨hj2, hjp⟩
      have hkey := get_eq_of_ids hids j hj2
      rw [hje, get_eq_of_ids hids i hi] at hkey
      cases hkey
      exact hjp
    · intro hint
      exact List.mem_map.mpr ⟨i, List.mem_filter.mpr ⟨hi, hint⟩, rfl⟩
  · rw [if_neg hdom] at htab
    rw [htab] at hc
    cases hc

/-- C5.  The builder emits exactly one entry per grid cell: 64,800 entries,
whose keys are precisely the cells with x in [-180, 180) and y in
[-90, 90), with no duplicates; a present cell always has a value, and a
cell whose rectangle intersects no item still has an entry holding the
empty id list. -/
theorem grid_complete (intersects : G → Rect → Bool) (items : List (Item G)) :
    (lookupEntries intersects items).length = 64800 ∧
    ((lookupEntries intersects items).map Prod.fst).Nodup ∧
    (∀ c : Cell, c ∈ (lookupEntries intersects items).map Prod.fst ↔ inDomain c) ∧
    (∀ c : Cell, (get_lookup_from_geometries intersects items c).isSome ↔ inDomain c) ∧
    (∀ c : Cell, inDomain c →
      (∀ i ∈ items, intersects i.geometry (cellRect c.1 c.2) = false) →
      get_lookup_from_geometries intersects items c = some []) := by
  refine ⟨length_lookupEntries intersects items,
    keys_lookupEntries_nodup intersects items,
    mem_keys_lookupEntries intersects items, ?_, ?_⟩
  · intro c
    rw [lookup_entries_eq]
    by_cases hdom : inDomain c
    · simp [hdom]
    · simp [hdom]
  · intro c hdom hempty
    rw [lookup_entries_eq, if_pos hdom]
    unfold cellIds
    have : items.filter (fun g => intersects g.geometry (cellRect c.1 c.2)) = [] := by
      rw [List.filter_eq_nil_iff]
      intro i hi
      simp [hempty i hi]
    rw [this]
    rfl

/-- C6.  On the builder's table, the id sequence returned by `lookup` is an
order-preserving filter (a sublist) of the target cell's candidate id
list; under the builder invariant `hids` that candidate list is strictly
ascending, hence so is the returned id sequence. -/
theorem lookup_ids_sublist_of_cell
    (intersects : G → Rect → Bool) (contains : G → F → F → Bool)
    (items : List (Item G)) (hids : IdsAreIndices items) (xf yf : F)
    (cids : List Nat)
    (hc : get_lookup_from_geometries intersects items (floorI16 xf, floorI16 yf) =
      some cids) :
    ∃ res, lookup contains (get_lookup_from_geometries intersects items) items xf yf =
        some res ∧
      (res.map (fun i => i.id)).Sublist cids ∧
      cids.Pairwise (· < ·) ∧
      (res.map (fun i => i.id)).Pairwise (· < ·) := by
  have htab := lookup_entries_eq intersects items (floorI16 xf, floorI16 yf)
  by_cases hdom : inDomain (floorI16 xf, floorI16 yf)
  · rw [if_pos hdom] at htab
    rw [htab] at hc
    cases hc
    have hpair := cellIds_pairwise intersects hids (floorI16 xf) (floorI16 yf)
    have hmap : map_into_items items
        ((items.filter (fun g =>
          intersects g.geometry (cellRect (floorI16 xf) (floorI16 yf)))).map
          (fun i => i.id)) =
        some (items.filter (fun g =>
          intersects g.geometry (cellRect (floorI16 xf) (floorI16 yf)))) :=
      map_into_items_of_get (fun i hi => get_eq_of_ids hids i (List.mem_of_mem_filter hi))
    refine ⟨(items.filter
        (fun g => intersects g.geometry (cellRect (floorI16 xf) (floorI16 yf)))).filter
        (fun i => contains i.geometry xf yf), ?_, ?_, hpair, ?_⟩
    · simp only [lookup, htab, cellIds, hmap]
    · have hsub : ((items.filter (fun g =>
          intersects g.geometry (cellRect (floorI16 xf) (floorI16 yf)))).filter
          (fun i => contains i.geometry xf yf)).Sublist
          (items.filter (fun g =>
            intersects g.geometry (cellRect (floorI16 xf) (floorI16 yf)))) :=
        List.filter_sublist _
      unfold cellIds
      exact hsub.map _
    · have hsub : ((items.filter (fun g =>
          intersects g.geometry (cellRect (floorI16 xf) (floorI16 yf)))).filter
          (fun i => contains i.geometry xf yf)).Sublist
          (items.filter (fun g =>
            intersects g.geometry (cellRect (floorI16 xf) (floorI16 yf)))) :=
        List.filter_sublist _
      unfold cellIds at hpair
      exact hpair.sublist (hsub.map _)
  · rw [if_neg hdom] at htab
    rw [htab] at hc
    cases hc

/-- C7.  A finite query point outside the cell domain (longitude of
magnitude above 180 or exactly 180, latitude of magnitude above 90 or
exactly 90) floors to a cell the builder never inserted, so `lookup`
returns the empty sequence rather than an error. -/
theorem lookup_outside_domain_empty
    (intersects : G → Rect → Bool) (contains : G → F → F → Bool)
    (items : List (Item G)) (q r : ℚ)
    (h : 180 < |q| ∨ 90 < |r| ∨ q = 180 ∨ r = 90) :
    lookup contains (get_lookup_from_geometries intersects items) items
      (F.fin q) (F.fin r) = some [] := by
  have hdom : ¬ inDomain (floorI16 (F.fin q), floorI16 (F.fin r)) := by
    intro hcon
    obtain ⟨h1, h2, h3, h4⟩ :
        -180 ≤ floorI16 (F.fin q) ∧ floorI16 (F.fin q) < 180 ∧
          -90 ≤ floorI16 (F.fin r) ∧ floorI16 (F.fin r) < 90 := hcon
    simp only [floorI16] at h1 h2 h3 h4
    rcases h with h | h | h | h
    · rcases lt_abs.mp h with hq | hq
      · have hfl : (180 : Int) ≤ ⌊q⌋ := by
          rw [Int.le_floor]
          push_cast
          linarith
        omega
      · have hfl : ⌊q⌋ < -180 := by
          rw [Int.floor_lt]
          push_cast
          linarith
        omega
    · rcases lt_abs.mp h with hr | hr
      · have hfl : (90 : Int) ≤ ⌊r⌋ := by
          rw [Int.le_floor]
          push_cast
          linarith
        omega
      · have hfl : ⌊r⌋ < -90 := by
          rw [Int.floor_lt]
          push_cast
          linarith
        omega
    · have hfl : ⌊q⌋ = 180 := by
        rw [h]
        norm_num
      omega
    · have hfl : ⌊r⌋ = 90 := by
        rw [h]
        norm_num
      omega
  have htab := lookup_entries_eq intersects items (floorI16 (F.fin q), floorI16 (F.fin r))
  rw [if_neg hdom] at htab
  unfold lookup
  rw [htab]

/-- C8.  `lookup` is total: for every float input, NaN and infinities
included, it produces a result (matched items or the empty sequence) and
never reaches the indexing panic, provided every id stored in any cell
list is a valid index into the item vector. -/
theorem lookup_total
    (contains : G → F → F → Bool) (table : Cell → Option (List Nat))
    (items : List (Item G))
    (hvalid : ∀ c ids, table c = some ids → ∀ id ∈ ids, id < items.length)
    (xf yf : F) :
    ∃ res, lookup contains table items xf yf = some res := by
  unfold lookup
  cases htab : table (floorI16 xf, floorI16 yf) with
  | none => exact ⟨[], rfl⟩
  | some ids =>
    rcases map_into_items_isSome (hvalid _ ids htab) with ⟨l, hl⟩
    refine ⟨l.filter (fun i => contains i.geometry xf yf), ?_⟩
    simp only [hl]

/-- C2.  In the fast-path variant lookup (`get_timezones`), when the cell's
candidate list maps to exactly one item and the query point is strictly
interior (|lng| < 179 and |lat| < 89), that single candidate is returned
unconditionally: the conclusion holds for every containment predicate, so
exact containment is never consulted. -/
theorem fast_path_skips_containment
    (contains : G → F → F → Bool) (cache : Cell → Option (List Int))
    (items : List (Item G)) (q r : ℚ) (ids : List Int) (t : Item G)
    (hc : cache (floorI16 (F.fin q), floorI16 (F.fin r)) = some ids)
    (hone : map_timezones items ids = [t])
    (hq : |q| < 179) (hr : |r| < 89) :
    get_timezones contains cache items (F.fin q) (F.fin r) = [t] := by
  rcases abs_lt.mp hq with ⟨hq1, hq2⟩
  rcases abs_lt.mp hr with ⟨hr1, hr2⟩
  have hcond : List.length [t] = 1 ∧
      F.blt (F.fin (-179)) (F.fin q) = true ∧ F.blt (F.fin q) (F.fin 179) = true ∧
      F.blt (F.fin (-89)) (F.fin r) = true ∧ F.blt (F.fin r) (F.fin 89) = true := by
    refine ⟨rfl, ?_, ?_, ?_, ?_⟩ <;> simp only [F.blt, decide_eq_true_eq] <;> linarith
  simp only [get_timezones, hc, hone]
  rw [if_pos hcond]

/-- C3 counterexample.  Decoding the encoding of a singleton item vector
does not reproduce the vector: the identifier "A" (byte 65) comes back with
the zero padding that `pad_string_alignment` added before encoding, because
`EncodableString::decode` never strips it. -/
theorem round_trip_counterexample :
    decodeConcreteVec (encodeConcreteVec [⟨0, [65], Geom.polygon ⟨[], []⟩⟩]) ≠
      Except.ok ([⟨0, [65], Geom.polygon ⟨[], []⟩⟩], ([] : List Tok)) := by
  intro hcon
  have h2 := decodeConcreteVec_round [⟨0, [65], Geom.polygon ⟨[], []⟩⟩] []
  rw [List.append_nil] at h2
  rw [h2] at hcon
  have h3 := Except.ok.inj hcon
  have h4 : ([⟨0, [65], Geom.polygon ⟨[], []⟩⟩] : List OsmTimezone).map padOsmTimezone =
      [⟨0, [65], Geom.polygon ⟨[], []⟩⟩] := congrArg Prod.fst h3
  have h5 : padOsmTimezone ⟨0, [65], Geom.polygon ⟨[], []⟩⟩ =
      (⟨0, [65], Geom.polygon ⟨[], []⟩⟩ : OsmTimezone) := by
    injection h4
  have h6 := congrArg OsmTimezone.identifier h5
  exact absurd h6 (by decide)

/-- C3 amended.  Decode of encode reproduces every item's id and geometry
coordinates exactly, and reproduces every string attribute up to the
trailing zero padding of `pad_string_alignment`: the decoded identifier is
the original followed by `4 - len mod 4` zero bytes (1 to 4 of them, for
the `f32` alignment of 4). -/
theorem round_trip_padded (ts : List OsmTimezone) (rest : List Tok) :
    decodeConcreteVec (encodeConcreteVec ts ++ rest) =
        Except.ok (ts.map padOsmTimezone, rest) ∧
      ∀ t : OsmTimezone, (padOsmTimezone t).id = t.id ∧
        (padOsmTimezone t).geometry = t.geometry ∧
        (padOsmTimezone t).identifier =
          t.identifier ++ List.replicate (4 - t.identifier.length % 4) 0 :=
  ⟨decodeConcreteVec_round ts rest, fun _ => ⟨rfl, rfl, rfl⟩⟩

/-- C9.  A leading geometry discriminant other than 0 (polygon) and
1 (multi-polygon) makes both the owned and the zero-copy decoder abort with
the fatal unsupported-variant outcome (the `panic!` of
`EncodableGeometry::{decode, borrow_decode}`), never yielding a
geometry. -/
theorem geometry_decode_unknown_variant (n : Nat) (rest : List Tok)
    (h0 : n ≠ 0) (h1 : n ≠ 1) :
    decodeGeometry (Tok.word n :: rest) = .error .unsupportedVariant ∧
    borrowDecodeGeometry (Tok.word n :: rest) = .error .unsupportedVariant ∧
    ∀ (g : Geom) (r : List Tok),
      decodeGeometry (Tok.word n :: rest) ≠ .ok (g, r) ∧
      borrowDecodeGeometry (Tok.word n :: rest) ≠ .ok (g, r) := by
  have hd : decodeGeometry (Tok.word n :: rest) = .error .unsupportedVariant := by
    simp only [decodeGeometry, decodeUsize, if_neg h0, if_neg h1]
  have hb : borrowDecodeGeometry (Tok.word n :: rest) = .error .unsupportedVariant := by
    simp only [borrowDecodeGeometry, decodeUsize, if_neg h0, if_neg h1]
  refine ⟨hd, hb, fun g r => ⟨?_, ?_⟩⟩
  · rw [hd]
    intro hcon
    cases hcon
  · rw [hb]
    intro hcon
    cases hcon

theorem tomezoneids_pads (v : List Int) (h : v.length ≤ 7) :
    i16_vec_to_tomezoneids v = some (v ++ List.replicate (7 - v.length) (-1)) := by
  rcases v with _ | ⟨a, _ | ⟨b, _ | ⟨c, _ | ⟨d, _ | ⟨e, _ | ⟨f, _ | ⟨g, _ | ⟨x, t⟩⟩⟩⟩⟩⟩⟩⟩
  · rfl
  · rfl
  · rfl
  · rfl
  · rfl
  · rfl
  · rfl
  · rfl
  · simp only [List.length_cons] at h
    omega

theorem adminids_pads (v : List Int) (h : v.length ≤ 9) :
    i16_vec_to_adminids v = some (v ++ List.replicate (9 - v.length) (-1)) := by
  rcases v with _ | ⟨a, _ | ⟨b, _ | ⟨c, _ | ⟨d, _ | ⟨e, _ | ⟨f, _ | ⟨g, _ |
    ⟨x, _ | ⟨y, _ | ⟨z, t⟩⟩⟩⟩⟩⟩⟩⟩⟩⟩
  · rfl
  · rfl
  · rfl
  · rfl
  · rfl
  · rfl
  · rfl
  · rfl
  · rfl
  · rfl
  · simp only [List.length_cons] at h
    omega

theorem initCacheEntries_aborts (entries : List (Cell × List Int))
    (h : ∃ e ∈ entries, 7 < e.2.length) : initCacheEntries entries = none := by
  induction entries with
  | nil =>
    rcases h with ⟨e, he, _⟩
    cases he
  | cons ent rest ih =>
    rcases ent with ⟨k, v⟩
    rcases h with ⟨e, he, hlen⟩
    rcases List.mem_cons.mp he with rfl | hmem
    · have hv : i16_vec_to_tomezoneids v = none := by
        unfold i16_vec_to_tomezoneids
        rw [if_pos hlen]
      simp only [initCacheEntries, hv]
    · have hrest : initCacheEntries rest = none := ih ⟨e, hmem, hlen⟩
      simp only [initCacheEntries, hrest]
      cases i16_vec_to_tomezoneids v <;> rfl

/-- C10.  Converting a cell's candidate id vector into the fixed-width
array panics (aborts) above 7 entries for time-zone corpora and above 9 for
admin corpora, and one such cell aborts the whole cache initialization of
`OsmTimezone::get_cache`; vectors at or below capacity come back padded
with the sentinel -1, and the stored values stay inside the i16 range
whenever the input ids do (the arrays are `[i16; N]`). -/
theorem fixed_width_conversion :
    (∀ v : List Int, 7 < v.length → i16_vec_to_tomezoneids v = none) ∧
    (∀ v : List Int, v.length ≤ 7 →
      i16_vec_to_tomezoneids v = some (v ++ List.replicate (7 - v.length) (-1))) ∧
    (∀ v : List Int, 9 < v.length → i16_vec_to_adminids v = none) ∧
    (∀ v : List Int, v.length ≤ 9 →
      i16_vec_to_adminids v = some (v ++ List.replicate (9 - v.length) (-1))) ∧
    (∀ entries : List (Cell × List Int), (∃ e ∈ entries, 7 < e.2.length) →
      initCacheEntries entries = none) ∧
    (∀ v w : List Int, (∀ x ∈ v, -32768 ≤ x ∧ x ≤ 32767) →
      i16_vec_to_tomezoneids v = some w → ∀ x ∈ w, -32768 ≤ x ∧ x ≤ 32767) := by
  refine ⟨?_, tomezoneids_pads, ?_, adminids_pads, initCacheEntries_aborts, ?_⟩
  · intro v h
    unfold i16_vec_to_tomezoneids
    rw [if_pos h]
  · intro v h
    unfold i16_vec_to_adminids
    rw [if_pos h]
  · intro v w hv hw
    by_cases hlen : v.length ≤ 7
    · rw [tomezoneids_pads v hlen] at hw
      cases hw
      intro x hx
      rcases List.mem_append.mp hx with hx | hx
      · exact hv x hx
      · rw [List.eq_of_mem_replicate hx]
        exact ⟨by norm_num, by norm_num⟩
    · rw [(by unfold i16_vec_to_tomezoneids; rw [if_pos (by omega)] :
        i16_vec_to_tomezoneids v = none)] at hw
      cases hw

end Claims

section Witnesses

/-- Witness for C1 at the one-item vector and the origin: the hypotheses
hold and the grid-assisted result equals the exhaustive one. -/
theorem lookup_eq_lookup_slow_inside_domain_witness :
    (IdsAreIndices [(⟨0, ()⟩ : Item Unit)] ∧
      (-180 : ℚ) ≤ 0 ∧ (0 : ℚ) < 180 ∧ (-90 : ℚ) ≤ 0 ∧ (0 : ℚ) < 90) ∧
    lookup (fun _ _ _ => true)
        (get_lookup_from_geometries (fun _ _ => true) [(⟨0, ()⟩ : Item Unit)])
        [(⟨0, ()⟩ : Item Unit)] (F.fin 0) (F.fin 0) =
      some (lookup_slow (fun _ _ _ => true) [(⟨0, ()⟩ : Item Unit)]
        (F.fin 0) (F.fin 0)) := by
  have hids : IdsAreIndices [(⟨0, ()⟩ : Item Unit)] := by
    intro k h
    have hk : k = 0 := by
      simp only [List.length_cons, List.length_nil] at h
      omega
    subst hk
    rfl
  refine ⟨⟨hids, by norm_num, by norm_num, by norm_num, by norm_num⟩, ?_⟩
  exact lookup_eq_lookup_slow_inside_domain (fun _ _ => true) (fun _ _ _ => true)
    [(⟨0, ()⟩ : Item Unit)] hids 0 0 (by norm_num) (by norm_num) (by norm_num)
    (by norm_num) (fun i hi hcon => rfl)

/-- Witness for C2 at a one-candidate cell containing the origin, with a
containment predicate that rejects everything: the candidate is still
returned, because the fast path skips containment. -/
theorem fast_path_skips_containment_witness :
    ((fun c : Cell => if c = (0, 0) then some [(0 : Int)] else none)
        (floorI16 (F.fin 0), floorI16 (F.fin 0)) = some [(0 : Int)] ∧
      map_timezones [(⟨0, ()⟩ : Item Unit)] [(0 : Int)] = [(⟨0, ()⟩ : Item Unit)] ∧
      |(0 : ℚ)| < 179 ∧ |(0 : ℚ)| < 89) ∧
    get_timezones (fun _ _ _ => false)
        (fun c : Cell => if c = (0, 0) then some [(0 : Int)] else none)
        [(⟨0, ()⟩ : Item Unit)] (F.fin 0) (F.fin 0) = [(⟨0, ()⟩ : Item Unit)] := by
  refine ⟨⟨by decide, by decide, by norm_num, by norm_num⟩, ?_⟩
  exact fast_path_skips_containment (fun _ _ _ => false)
    (fun c : Cell => if c = (0, 0) then some [(0 : Int)] else none)
    [(⟨0, ()⟩ : Item Unit)] 0 0 [(0 : Int)] ⟨0, ()⟩
    (by decide) (by decide) (by norm_num) (by norm_num)

/-- Witness for C4 at a one-item vector whose geometry intersects
everything, at cell (0, 0): the id is in the cell list iff the geometry
intersects the cell rectangle. -/
theorem cellIds_mem_iff_intersects_witness :
    (IdsAreIndices [(⟨0, ()⟩ : Item Unit)] ∧
      get_lookup_from_geometries (fun _ _ => true) [(⟨0, ()⟩ : Item Unit)] (0, 0) =
        some [0]) ∧
    ((⟨0, ()⟩ : Item Unit).id ∈ [0] ↔
      (fun (_ : Unit) (_ : Rect) => true) () (cellRect 0 0) = true) := by
  have hids : IdsAreIndices [(⟨0, ()⟩ : Item Unit)] := by
    intro k h
    have hk : k = 0 := by
      simp only [List.length_cons, List.length_nil] at h
      omega
    subst hk
    rfl
  have hc : get_lookup_from_geometries (fun _ _ => true) [(⟨0, ()⟩ : Item Unit)] (0, 0) =
      some [0] := by
    rw [lookup_entries_eq, if_pos (by decide)]
    rfl
  refine ⟨⟨hids, hc⟩, ?_⟩
  exact cellIds_mem_iff_intersects (fun _ _ => true) [(⟨0, ()⟩ : Item Unit)] hids
    ⟨0, ()⟩ (List.mem_cons_self _ _) 0 0 [0] hc

/-- Witness for C5 on the empty item vector: the table has the full 64,800
entries and the in-domain cell (0, 0), intersecting nothing, holds the
empty id list. -/
theorem grid_complete_witness :
    (lookupEntries (fun _ _ => false) ([] : List (Item Unit))).length = 64800 ∧
    get_lookup_from_geometries (fun _ _ => false) ([] : List (Item Unit)) (0, 0) =
      some [] := by
  refine ⟨(grid_complete (fun _ _ => false) ([] : List (Item Unit))).1, ?_⟩
  exact (grid_complete (fun _ _ => false) ([] : List (Item Unit))).2.2.2.2 (0, 0)
    (by decide) (fun i hi => absurd hi (List.not_mem_nil i))

/-- Witness for C6 at the one-item vector and the origin: the returned id
sequence is a sublist of the strictly ascending cell list. -/
theorem lookup_ids_sublist_of_cell_witness :
    (IdsAreIndices [(⟨0, ()⟩ : Item Unit)] ∧
      get_lookup_from_geometries (fun _ _ => true) [(⟨0, ()⟩ : Item Unit)]
        (floorI16 (F.fin 0), floorI16 (F.fin 0)) = some [0]) ∧
    ∃ res, lookup (fun _ _ _ => true)
          (get_lookup_from_geometries (fun _ _ => true) [(⟨0, ()⟩ : Item Unit)])
          [(⟨0, ()⟩ : Item Unit)] (F.fin 0) (F.fin 0) = some res ∧
        (res.map (fun i => i.id)).Sublist [0] ∧
        ([0] : List Nat).Pairwise (· < ·) ∧
        (res.map (fun i => i.id)).Pairwise (· < ·) := by
  have hids : IdsAreIndices [(⟨0, ()⟩ : Item Unit)] := by
    intro k h
    have hk : k = 0 := by
      simp only [List.length_cons, List.length_nil] at h
      omega
    subst hk
    rfl
  have hf : floorI16 (F.fin 0) = 0 := by decide
  have hc : get_lookup_from_geometries (fun _ _ => true) [(⟨0, ()⟩ : Item Unit)]
      (floorI16 (F.fin 0), floorI16 (F.fin 0)) = some [0] := by
    rw [hf, lookup_entries_eq, if_pos (by decide)]
    rfl
  refine ⟨⟨hids, hc⟩, ?_⟩
  exact lookup_ids_sublist_of_cell (fun _ _ => true) (fun _ _ _ => true)
    [(⟨0, ()⟩ : Item Unit)] hids (F.fin 0) (F.fin 0) [0] hc

/-- Witness for C7 at longitude 200 on the empty item vector: outside the
domain, the lookup returns the empty sequence. -/
theorem lookup_outside_domain_empty_witness :
    (180 < |(200 : ℚ)| ∨ 90 < |(0 : ℚ)| ∨ (200 : ℚ) = 180 ∨ (0 : ℚ) = 90) ∧
    lookup (fun _ _ _ => true)
        (get_lookup_from_geometries (fun _ _ => true) ([] : List (Item Unit)))
        ([] : List (Item Unit)) (F.fin 200) (F.fin 0) = some [] := by
  refine ⟨Or.inl (by norm_num), ?_⟩
  exact lookup_outside_domain_empty (fun _ _ => true) (fun _ _ _ => true)
    ([] : List (Item Unit)) 200 0 (Or.inl (by norm_num))

/-- Witness for C8 at NaN and infinity on an empty table: the lookup still
produces a result. -/
theorem lookup_total_witness :
    (∀ (c : Cell) (ids : List Nat),
        (fun _ : Cell => (none : Option (List Nat))) c = some ids →
        ∀ id ∈ ids, id < ([] : List (Item Unit)).length) ∧
    ∃ res, lookup (fun _ _ _ => true) (fun _ : Cell => (none : Option (List Nat)))
        ([] : List (Item Unit)) F.nan F.inf = some res := by
  refine ⟨fun c ids h => Option.noConfusion h, ?_⟩
  exact lookup_total (fun _ _ _ => true) (fun _ : Cell => (none : Option (List Nat)))
    ([] : List (Item Unit)) (fun c ids h => Option.noConfusion h) F.nan F.inf

/-- Witness for C9 at discriminant 2: both decoders abort with the
unsupported-variant outcome. -/
theorem geometry_decode_unknown_variant_witness :
    ((2 : Nat) ≠ 0 ∧ (2 : Nat) ≠ 1) ∧
    decodeGeometry [Tok.word 2] = .error .unsupportedVariant ∧
    borrowDecodeGeometry [Tok.word 2] = .error .unsupportedVariant := by
  refine ⟨⟨by decide, by decide⟩, ?_, ?_⟩
  · exact (geometry_decode_unknown_variant 2 [] (by decide) (by decide)).1
  · exact (geometry_decode_unknown_variant 2 [] (by decide) (by decide)).2.1

/-- Witness for C10: an eight-id cell panics the time-zone conversion and
aborts cache initialization; a one-id cell is padded with -1; a ten-id cell
panics the admin conversion. -/
theorem fixed_width_conversion_witness :
    i16_vec_to_tomezoneids [0, 1, 2, 3, 4, 5, 6, 7] = none ∧
    i16_vec_to_tomezoneids [5] = some [5, -1, -1, -1, -1, -1, -1] ∧
    i16_vec_to_adminids [0, 1, 2, 3, 4, 5, 6, 7, 8, 9] = none ∧
    i16_vec_to_adminids [] = some [-1, -1, -1, -1, -1, -1, -1, -1, -1] ∧
    initCacheEntries [((0, 0), [0, 1, 2, 3, 4, 5, 6, 7])] = none := by
  refine ⟨?_, ?_, ?_, ?_, ?_⟩
  · exact fixed_width_conversion.1 [0, 1, 2, 3, 4, 5, 6, 7] (by decide)
  · have h := fixed_width_conversion.2.1 [5] (by decide)
    simpa using h
  · exact fixed_width_conversion.2.2.1 [0, 1, 2, 3, 4, 5, 6, 7, 8, 9] (by decide)
  · have h := fixed_width_conversion.2.2.2.1 [] (by decide)
    simpa using h
  · exact fixed_width_conversion.2.2.2.2.1 [((0, 0), [0, 1, 2, 3, 4, 5, 6, 7])]
      ⟨((0, 0), [0, 1, 2, 3, 4, 5, 6, 7]), List.mem_cons_self _ _, by decide⟩

end Witnesses

end Rtz
